import Mathlib

/-!
Verification of the `toyplex` mixed-integer linear programming solver
(`toyplex/model.py`) against its natural-language specification.

The core under verification is `src/toyplex/model.py` (class `Node`, the
LP-relaxation holder with tableau construction and result readout, and class
`Model`, the branch-and-bound controller).  The repository modules
`toyplex.components` (`Var`, `LinExpr`, `LinConstr`) and `toyplex.simplex`
(`Simplex`) are imported by `model.py` but are not part of the sources under
verification; they are modelled from the specification where noted.

Python floats are modelled as exact rationals.  Because the Lean kernel cannot
reduce `Nat.gcd` (well-founded recursion), we use a small self-contained
rational type `Q` whose normalisation uses a fuel-based Euclidean gcd; every
arithmetic operation returns a canonical value (reduced fraction, positive
denominator), so equality of computed values is plain structural equality.

Python `dict`s (insertion-ordered, update-in-place) are modelled as
association lists with dict semantics (`dlookup`, `dinsert`, `dupdate`),
`raise`/`KeyError` as `Option.none`, and the two unbounded loops
(simplex pivoting, branch-and-bound) with explicit fuel.
-/

namespace Toyplex

/-- Fuel-based Euclidean gcd helper; structurally recursive so the kernel can
reduce it (the standard `Nat.gcd` is stuck under `decide`). -/
def gcdAux : Nat → Nat → Nat → Nat
  | 0, _, b => b
  | f + 1, a, b => if a = 0 then b else gcdAux f (b % a) a

/-- Greatest common divisor with enough fuel for Euclid's algorithm. -/
def ngcd (a b : Nat) : Nat := gcdAux (a + 1) a b

/-- Exact rational numbers modelling Python floats.  All inputs in the
scenarios are decimal literals, and all arithmetic performed by the code on
them is exact, so the rational model agrees with float execution on every
value the proofs touch. -/
structure Q where
  num : Int
  den : Int
  deriving DecidableEq, Repr

/-- Smart constructor: canonical form, reduced fraction with positive
denominator. -/
def Q.mk' (n d : Int) : Q :=
  if d = 0 then ⟨0, 1⟩
  else
    let d' := if d < 0 then -d else d
    let n' := if d < 0 then -n else n
    let g : Int := Int.ofNat (ngcd n'.natAbs d'.natAbs)
    if g = 0 then ⟨0, 1⟩ else ⟨n'.ediv g, d'.ediv g⟩

def Q.ofInt (n : Int) : Q := ⟨n, 1⟩

def Q.add (a b : Q) : Q := Q.mk' (a.num * b.den + b.num * a.den) (a.den * b.den)

def Q.sub (a b : Q) : Q := Q.mk' (a.num * b.den - b.num * a.den) (a.den * b.den)

def Q.mul (a b : Q) : Q := Q.mk' (a.num * b.num) (a.den * b.den)

def Q.div (a b : Q) : Q := Q.mk' (a.num * b.den) (a.den * b.num)

def Q.neg (a : Q) : Q := ⟨-a.num, a.den⟩

/-- Strict order on `Q` (denominators are kept positive). -/
def Q.blt (a b : Q) : Bool := a.num * b.den < b.num * a.den

/-- Python `float(v).is_integer()` on an exact value. -/
def Q.isInt (a : Q) : Bool := a.den = 1

/-- Python `math.floor` on an exact value. -/
def Q.qfloor (a : Q) : Q := Q.ofInt (Int.fdiv a.num a.den)

/-- Python `math.ceil` on an exact value. -/
def Q.qceil (a : Q) : Q := Q.ofInt (-(Int.fdiv (-a.num) a.den))

def q0 : Q := Q.ofInt 0

def q1 : Q := Q.ofInt 1

/-- Extended rationals: Python `math.inf` / `-math.inf` sentinels used for
`objval` and the incumbent value. -/
inductive XQ where
  | negInf : XQ
  | fin : Q → XQ
  | posInf : XQ
  deriving DecidableEq, Repr

/-- Strict `<` on extended rationals, matching IEEE comparison of the
floats involved (`-inf < q < inf`, `inf < inf` false). -/
def XQ.xblt : XQ → XQ → Bool
  | XQ.negInf, XQ.negInf => false
  | XQ.negInf, _ => true
  | XQ.fin _, XQ.negInf => false
  | XQ.fin a, XQ.fin b => Q.blt a b
  | XQ.fin _, XQ.posInf => true
  | XQ.posInf, _ => false

/-! ### Python dict semantics over association lists -/

/-- Dict lookup: value at the first occurrence of the key (`d[k]`,
`none` = `KeyError`). -/
def dlookup {κ α : Type} [DecidableEq κ] : List (κ × α) → κ → Option α
  | [], _ => none
  | (k, v) :: t, j => if k = j then some v else dlookup t j

def dkeys {κ α : Type} (d : List (κ × α)) : List κ := d.map Prod.fst

def dvalues {κ α : Type} (d : List (κ × α)) : List α := d.map Prod.snd

/-- Dict single-key assignment `d[k] = v`: overwrite in place if the key is
present (keeping its position), append otherwise. -/
def dinsert {κ α : Type} [DecidableEq κ] : List (κ × α) → κ → α → List (κ × α)
  | [], k, v => [(k, v)]
  | (k', v') :: t, k, v => if k' = k then (k', v) :: t else (k', v') :: dinsert t k v

/-- Dict `d1.update(d2)`. -/
def dupdate {κ α : Type} [DecidableEq κ] (d1 d2 : List (κ × α)) : List (κ × α) :=
  d2.foldl (fun acc p => dinsert acc p.1 p.2) d1

/-! ### Problem-builder data (modelled from the spec) -/

/-- Modelled from the spec: `toyplex.components.Var` — "Variable: identity
(name), kind ∈ {continuous, binary, integer}, ..., current value (set only
after a solve)".  The value is initialised to 0 in the model; the code only
ever reads it after a solve has assigned it. -/
structure Var where
  name : String
  type : String
  val : Q := q0
  deriving DecidableEq, Repr

/-- Modelled from the spec: `toyplex.components.LinExpr` — "LinearExpression:
mapping from variable-identity to coefficient (keys unique), optional constant
term".  The constant term is the entry under the key "const", exactly as
`model.py` accesses it. -/
structure LinExpr where
  coeffs : List (String × Q)
  deriving DecidableEq, Repr

/-- Modelled from the spec: `toyplex.components.LinConstr` — "Constraint: a
LinearExpression, a relational sense ∈ {≤, =, ≥}, a right-hand-side scalar". -/
structure LinConstr where
  coeffs : List (String × Q)
  sense : String
  b : Q
  deriving DecidableEq, Repr

/-- Modelled from the spec: the problem builder's `var <= bound` constraint
(used by `Node.add_var` and the branching step of `Model.optimize`). -/
def leC (v : Var) (b : Q) : LinConstr := { coeffs := [(v.name, q1)], sense := "<=", b := b }

/-- Modelled from the spec: the problem builder's `var >= bound` constraint. -/
def geC (v : Var) (b : Q) : LinConstr := { coeffs := [(v.name, q1)], sense := ">=", b := b }

/-! ### The simplex engine (modelled from the spec) -/

/-- Pivot row selection helper: first index achieving the minimum of a list. -/
def argminQ : List Q → Option (Nat × Q)
  | [] => none
  | q :: t =>
    match argminQ t with
    | none => some (0, q)
    | some (i, m) => if Q.blt m q then some (i + 1, m) else some (0, q)

/-- Modelled from the spec (§4.2 step 1-2): entering column = the most
negative entry of the objective row excluding the right-hand side, leftmost on
ties; `none` when no entry is negative (optimality). -/
def enteringCol (obj : List Q) : Option Nat :=
  match argminQ obj.dropLast with
  | none => none
  | some (i, q) => if Q.blt q q0 then some i else none

/-- Modelled from the spec (§4.2 step 3-4): leaving row = among constraint
rows with a strictly positive entry in the entering column, the row of minimum
ratio rhs/entry, smallest row index on ties; `none` when no row qualifies
(unboundedness). -/
def leavingRow (rows : List (List Q)) (c : Nat) : Option Nat :=
  let cands := rows.enum.filterMap (fun p =>
    let a := p.2.getD c q0
    if Q.blt q0 a then some (p.1, Q.div (p.2.getLast?.getD q0) a) else none)
  (cands.foldl (fun acc p =>
    match acc with
    | none => some p
    | some q => if Q.blt p.2 q.2 then some p else acc) none).map Prod.fst

/-- Modelled from the spec (§4.2 step 5): Gauss-Jordan pivot — scale the pivot
row so the pivot entry becomes 1, then eliminate the entering column from
every other row including the objective row. -/
def pivotTab (tab : List (List Q)) (r c : Nat) : List (List Q) :=
  let prow0 := tab.getD r []
  let p := prow0.getD c q1
  let prow := prow0.map (fun q => Q.div q p)
  tab.enum.map (fun pr =>
    if pr.1 = r then prow
    else
      let f := pr.2.getD c q0
      List.zipWith (fun a b => Q.sub a (Q.mul f b)) pr.2 prow)

/-- Does constraint row `i` have a basic variable, i.e. a column (excluding
the right-hand side) that is 1 in row `i` and 0 in every other constraint
row? -/
def hasBasicRow (rows : List (List Q)) (i : Nat) (w : Nat) : Bool :=
  (List.range (w - 1)).any (fun j =>
    decide ((rows.getD i []).getD j q0 = q1) &&
      rows.enum.all (fun pr => pr.1 == i || decide (pr.2.getD j q0 = q0)))

/-- Modelled from the spec: the engine performs "no explicit infeasibility
detection" inside the pivot loop; "infeasibility of a relaxation must be
established by the caller via its own initial-basis construction" (§4.2), a
node being Infeasible when its "relaxation has no feasible basic solution"
(§4.3), where a basic solution needs "exactly one column per row [to be] a
unit column" (glossary).  So: feasible start iff every constraint row has a
basic variable.  This reading reproduces all three concrete scenarios of §8. -/
def hasFeasibleBasis (tab : List (List Q)) : Bool :=
  let rows := tab.dropLast
  let w := (tab.headD []).length
  (List.range rows.length).all (fun i => hasBasicRow rows i w)

/-- Modelled from the spec (§4.2): the pivot loop, with explicit fuel for the
(flagged-as-unhandled) possibility of cycling; result codes 0 = Optimal,
1 = Unbounded. -/
def simplexLoop : Nat → List (List Q) → Option (Int × List (List Q))
  | 0, _ => none
  | f + 1, tab =>
    match enteringCol (tab.getLast?.getD []) with
    | none => some (0, tab)
    | some c =>
      match leavingRow tab.dropLast c with
      | none => some (1, tab)
      | some r => simplexLoop f (pivotTab tab r c)

/-- Modelled from the spec: `toyplex.simplex.Simplex.solve` — initial-basis
infeasibility check (code 2), then the §4.2 pivot loop. -/
def simplexSolve (fuel : Nat) (tab : List (List Q)) : Option (Int × List (List Q)) :=
  if hasFeasibleBasis tab then simplexLoop fuel tab else some (2, tab)

/-! ### class Node (model.py lines 9-153) -/

/-- The `Node` object of `model.py`: one LP relaxation.  `spxTab` holds the
final tableau of the simplex object (`self.spx.tab`). -/
structure Node where
  key : Nat
  code : Int := -1
  sense : String := "min"
  vars : List (String × Var) := []
  conts : List (String × Var) := []
  bins : List (String × Var) := []
  ints : List (String × Var) := []
  slacks : List (String × Var) := []
  surplus : List (String × Var) := []
  constrs : List LinConstr := []
  nvars : Nat := 0
  nconstrs : Nat := 0
  objval : XQ := XQ.posInf
  objexpr : Option LinExpr := none
  objective : Option (List Q) := none
  tab : Option (List (List Q)) := none
  spxTab : Option (List (List Q)) := none
  deriving DecidableEq, Repr

def mkNode (k : Nat) : Node := { key := k }

/-- `Node.add_constr` (lines 68-83): append a slack variable (coefficient +1)
for `<=`, a surplus variable (coefficient -1) for `>=`, nothing for `==`,
then append the constraint. -/
def nodeAddConstr (n : Node) (c : LinConstr) : Node :=
  if c.sense = "==" then
    { n with constrs := n.constrs ++ [c] }
  else if c.sense = "<=" then
    let nm := "s" ++ toString (n.slacks.length + 1)
    { n with slacks := dinsert n.slacks nm { name := nm, type := "cont" },
             constrs := n.constrs ++ [{ c with coeffs := dinsert c.coeffs nm q1 }] }
  else if c.sense = ">=" then
    let nm := "p" ++ toString (n.surplus.length + 1)
    { n with surplus := dinsert n.surplus nm { name := nm, type := "cont" },
             constrs := n.constrs ++ [{ c with coeffs := dinsert c.coeffs nm (Q.neg q1) }] }
  else
    { n with constrs := n.constrs ++ [c] }

/-- `Node.add_var` (lines 44-66).  Only the `cont` branch materialises the
`lb`/`ub` arguments as constraints; `bin` always adds `var <= 1`; `int` adds
no constraint.  Returns the node and `self.vars[name]` (`none` models the
`KeyError` raised for an unrecognised type with an absent name). -/
def nodeAddVar (n : Node) (ty : String) (lb : Q) (ub : Option Q) (name : Option String) :
    Option (Node × Var) :=
  if ty = "cont" then
    let nm := name.getD ("x" ++ toString (n.conts.length + 1))
    let v : Var := { name := nm, type := ty }
    let n1 := { n with conts := dinsert n.conts nm v }
    let n2 := { n1 with vars := dupdate n1.vars n1.conts }
    let n3 := if Q.blt q0 lb then nodeAddConstr n2 (geC v lb) else n2
    let n4 := match ub with
      | some u => nodeAddConstr n3 (leC v u)
      | none => n3
    (dlookup n4.vars nm).map (fun w => (n4, w))
  else if ty = "bin" then
    let nm := name.getD ("b" ++ toString (n.bins.length + 1))
    let v : Var := { name := nm, type := ty }
    let n1 := { n with bins := dinsert n.bins nm v }
    let n2 := { n1 with vars := dupdate n1.vars n1.bins }
    let n3 := nodeAddConstr n2 (leC v q1)
    (dlookup n3.vars nm).map (fun w => (n3, w))
  else if ty = "int" then
    let nm := name.getD ("i" ++ toString (n.ints.length + 1))
    let v : Var := { name := nm, type := ty }
    let n1 := { n with ints := dinsert n.ints nm v }
    let n2 := { n1 with vars := dupdate n1.vars n1.ints }
    (dlookup n2.vars nm).map (fun w => (n2, w))
  else
    (name.bind (dlookup n.vars)).map (fun w => (n, w))

/-- Coefficient placement loop shared by `set_tab` and `set_objective`: for
each (key, coeff) with coeff ≠ 0, write it at the key's column index; an
unknown key is a `KeyError` (`none`). -/
def placeCoeffs (keys : List String) : List (String × Q) → List Q → Option (List Q)
  | [], arr => some arr
  | (k, q) :: t, arr =>
    if q = q0 then placeCoeffs keys t arr
    else
      match keys.findIdx? (fun s => s == k) with
      | none => none
      | some i => placeCoeffs keys t (arr.set i q)

/-- Removal of a dict key (`del d[k]`). -/
def dremove {κ α : Type} [DecidableEq κ] : List (κ × α) → κ → List (κ × α)
  | [], _ => []
  | (k, v) :: t, j => if k = j then t else (k, v) :: dremove t j

/-- `Node.set_objective` (lines 101-121).  The objective array has one entry
per decision/slack/surplus variable plus the right-hand side; a constant term
is moved (negated) to the right-hand side entry and deleted from the shared
expression (the returned `LinExpr` models that in-place mutation); for sense
`max` the whole array is negated and the node's sense updated. -/
def nodeSetObjective (n : Node) (e : LinExpr) (sense : String) : Option (Node × LinExpr) :=
  let width := n.vars.length + n.slacks.length + n.surplus.length + 1
  let cpair : Q × LinExpr :=
    match dlookup e.coeffs "const" with
    | some c => (Q.neg c, { coeffs := dremove e.coeffs "const" })
    | none => (q0, e)
  let e1 := cpair.2
  let base := (List.replicate (width - 1) q0) ++ [cpair.1]
  match placeCoeffs (dkeys n.vars) e1.coeffs base with
  | none => none
  | some arr =>
    if sense = "max" then
      some ({ n with objexpr := some e1, objective := some (arr.map Q.neg), sense := "max" }, e1)
    else
      some ({ n with objexpr := some e1, objective := some arr, sense := n.sense }, e1)

/-- One tableau row of `set_tab`: zeros, the nonzero coefficients by column
index, and the right-hand side in the last slot (which stays 0 when the
coefficient map is empty, because the assignment sits inside the key loop). -/
def buildRow (colKeys : List String) (c : LinConstr) : Option (List Q) :=
  match placeCoeffs colKeys c.coeffs (List.replicate colKeys.length q0) with
  | none => none
  | some r => some (r ++ [if c.coeffs.isEmpty then q0 else c.b])

/-- `Node.set_tab` (lines 85-99): constraint rows over the column order
decision vars, then slacks, then surplus, with the objective row appended
(`np.vstack` fails unless the widths agree). -/
def nodeSetTab (n : Node) : Option Node :=
  let colKeys := dkeys n.vars ++ dkeys n.slacks ++ dkeys n.surplus
  match n.constrs.mapM (buildRow colKeys), n.objective with
  | some rows, some obj =>
    if obj.length = colKeys.length + 1 then
      some { n with tab := some (rows ++ [obj]),
                    nconstrs := n.constrs.length, nvars := colKeys.length }
    else none
  | _, _ => none

/-- Column `j` of a tableau. -/
def readCol (ftab : List (List Q)) (j : Nat) : List Q := ftab.map (fun r => r.getD j q0)

/-- Right-hand-side entry of row `i`. -/
def rhsAt (ftab : List (List Q)) (i : Nat) : Q := ((ftab.getD i []).getLast?).getD q0

/-- The value `Node.optimize` (lines 148-153) assigns to the variable of
column `j`: 0 unless (a) exactly one constraint-row entry of the column is
strictly positive and (b) exactly one entry of the whole column (objective
row included) equals 1, in which case it is the right-hand side of the row
holding that 1. -/
def codeVal (ftab : List (List Q)) (j : Nat) : Q :=
  let col := readCol ftab j
  let cons := col.dropLast
  if (cons.filter (fun q => Q.blt q0 q)).length = 1 then
    match (List.range col.length).filter (fun i => decide (col.getD i q0 = q1)) with
    | [i] => rhsAt ftab i
    | _ => q0
  else q0

/-- The per-variable value assignment of `Node.optimize`: variable of column
index `i` gets `codeVal` of column `i`. -/
def assignVals (vars : List (String × Var)) (ftab : List (List Q)) : List (String × Var) :=
  vars.enum.map (fun p => (p.2.1, { p.2.2 with val := codeVal ftab p.1 }))

/-- In Python the `Var` objects in `vars`, `conts`, `bins` and `ints` are the
same objects, so writing `self.vars[key].val` is visible through the per-kind
dicts; the pure model re-synchronises them explicitly. -/
def syncVals (vars1 : List (String × Var)) (d : List (String × Var)) : List (String × Var) :=
  d.map (fun p => (p.1, (dlookup vars1 p.1).getD p.2))

/-- `Node.optimize` (lines 132-153): build the tableau, run the simplex
engine, copy its status code, and on Optimal read the objective value off the
objective row's right-hand side (sign-adjusted for the sense) and assign the
variable values. -/
def nodeOptimize (pfuel : Nat) (n : Node) : Option Node :=
  match nodeSetTab n with
  | none => none
  | some t =>
    match t.tab with
    | none => none
    | some tb =>
      match simplexSolve pfuel tb with
      | none => none
      | some (code, ftab) =>
        let t1 := { t with code := code, spxTab := some ftab }
        if code = 0 then
          let rhs := ((ftab.getLast?.getD []).getLast?).getD q0
          let ov : XQ :=
            if t1.sense = "min" then XQ.fin (Q.neg rhs)
            else if t1.sense = "max" then XQ.fin rhs
            else t1.objval
          let vars1 := assignVals t1.vars ftab
          some { t1 with objval := ov, vars := vars1,
                         conts := syncVals vars1 t1.conts,
                         bins := syncVals vars1 t1.bins,
                         ints := syncVals vars1 t1.ints }
        else some t1

/-! ### class Model (model.py lines 156-315) -/

/-- The `Model` object of `model.py`: the branch-and-bound controller. -/
structure MModel where
  code : Int := -1
  nodes : List (Nat × Node) := [(0, mkNode 0)]
  candidates : List Nat := [0]
  icmbkey : Option Nat := none
  icmbval : XQ := XQ.posInf
  sense : String := "min"
  vars : List (String × Var) := []
  conts : List (String × Var) := []
  bins : List (String × Var) := []
  ints : List (String × Var) := []
  slacks : List (String × Var) := []
  surplus : List (String × Var) := []
  constrs : List LinConstr := []
  objkey : Option Nat := some 0
  objval : XQ := XQ.posInf
  objexpr : Option LinExpr := none
  deriving DecidableEq, Repr

def modelNew : MModel := {}

/-- `Model.add_var` (lines 192-211).  The three `if` branches cover all cases
except both bounds given; the maps `vars`, `conts`, `bins`, `ints`, `slacks`
and `surplus` are all updated with the root's full `vars` dict; the returned
handle is `self.nodes[0].vars[name]` with the raw `name` argument (`none`
models the `KeyError`). -/
def modelAddVar (m : MModel) (ty : String) (lb ub : Option Q) (name : Option String) :
    Option (MModel × Var) :=
  match dlookup m.nodes 0 with
  | none => none
  | some root =>
    let rootOpt : Option Node :=
      match lb, ub with
      | none, none => (nodeAddVar root ty q0 none name).map Prod.fst
      | none, some u => (nodeAddVar root ty q0 (some u) name).map Prod.fst
      | some l, none => (nodeAddVar root ty l none name).map Prod.fst
      | some _, some _ => some root
    match rootOpt with
    | none => none
    | some root1 =>
      let m1 := { m with nodes := dinsert m.nodes 0 root1,
                         vars := dupdate m.vars root1.vars,
                         conts := dupdate m.conts root1.vars,
                         bins := dupdate m.bins root1.vars,
                         ints := dupdate m.ints root1.vars,
                         slacks := dupdate m.slacks root1.vars,
                         surplus := dupdate m.surplus root1.vars,
                         constrs := root1.constrs }
      match name with
      | none => none
      | some nm =>
        match dlookup root1.vars nm with
        | none => none
        | some v => some (m1, v)

/-- `Model.add_constr` (lines 213-216). -/
def modelAddConstr (m : MModel) (c : LinConstr) : Option MModel :=
  match dlookup m.nodes 0 with
  | none => none
  | some root =>
    let root1 := nodeAddConstr root c
    some { m with nodes := dinsert m.nodes 0 root1, constrs := root1.constrs }

/-- `Model.set_objective` (lines 218-225). -/
def modelSetObjective (m : MModel) (e : LinExpr) (sense : String) : Option MModel :=
  match dlookup m.nodes 0 with
  | none => none
  | some root =>
    match nodeSetObjective root e sense with
    | none => none
    | some (root1, e1) =>
      let m1 := { m with nodes := dinsert m.nodes 0 root1, objexpr := some e1 }
      if sense = "max" then
        some { m1 with sense := "max", objval := XQ.negInf, icmbval := XQ.negInf }
      else some m1

/-- The strict-improvement test of `Model.optimize` (lines 268 and 294):
`(sense == 'max' and objval > icmbval) or (sense == 'min' and objval < icmbval)`. -/
def better (sense : String) (a b : XQ) : Bool :=
  (sense == "max" && XQ.xblt b a) || (sense == "min" && XQ.xblt a b)

/-- The fractional-variable list of `Model.optimize` (lines 259-263): integer
variables before binaries, each in declaration order, keeping those whose
value is not an integer. -/
def fracList (n : Node) : List Var :=
  (dvalues n.ints ++ dvalues n.bins).filter (fun v => !(Q.isInt v.val))

/-- Insertion into the candidate dict: appends the key, or keeps its position
if already present (Python dict assignment). -/
def candInsert (l : List Nat) (k : Nat) : List Nat :=
  if k ∈ l then l else l ++ [k]

/-- One iteration of the `while self.code == -1` body of `Model.optimize`
(lines 242-306): with no candidate the model code becomes 0; otherwise the
first candidate node is solved, then the code branches on its status —
Optimal with no fractional variable: drop and possibly update the incumbent;
Optimal with fractional variables: branch into two children (bound down /
bound up on the first fractional variable) if the relaxation strictly
improves on the incumbent, else just drop; Unbounded: model code 1;
Infeasible: drop. -/
def modelStep (pfuel : Nat) (m : MModel) : Option MModel :=
  match m.candidates with
  | [] => some { m with code := 0 }
  | k :: _ =>
    match dlookup m.nodes k with
    | none => none
    | some node =>
      match nodeOptimize pfuel node with
      | none => none
      | some solved =>
        let m1 : MModel := { m with nodes := dinsert m.nodes k solved }
        if solved.code = 0 then
          match fracList solved with
          | [] =>
            let m2 := { m1 with candidates := m1.candidates.erase k }
            if better m.sense solved.objval m.icmbval then
              some { m2 with icmbkey := some solved.key, icmbval := solved.objval }
            else some m2
          | v :: _ =>
            if better m.sense solved.objval m.icmbval then
              match m.objexpr with
              | none => none
              | some e =>
                let m2 := { m1 with candidates := m1.candidates.erase k }
                let lraw := nodeAddConstr { solved with key := m2.nodes.length, code := -1 }
                  (leC v (Q.qfloor v.val))
                match nodeSetObjective lraw e m.sense with
                | none => none
                | some (lN, e1) =>
                  let m3 := { m2 with nodes := dinsert m2.nodes lN.key lN,
                                      candidates := candInsert m2.candidates lN.key,
                                      objexpr := some e1 }
                  let rraw := nodeAddConstr { solved with key := m3.nodes.length, code := -1 }
                    (geC v (Q.qceil v.val))
                  match nodeSetObjective rraw e1 m.sense with
                  | none => none
                  | some (rN, e2) =>
                    some { m3 with nodes := dinsert m3.nodes rN.key rN,
                                   candidates := candInsert m3.candidates rN.key,
                                   objexpr := some e2 }
            else some { m1 with candidates := m1.candidates.erase k }
        else if solved.code = 1 then some { m1 with code := 1 }
        else if solved.code = 2 then some { m1 with candidates := m1.candidates.erase k }
        else some m1

/-- The `while self.code == -1` loop of `Model.optimize`, with fuel, also
returning the trace of candidate keys popped for solving (in order). -/
def modelLoop (pfuel : Nat) : Nat → MModel → Option (MModel × List Nat)
  | 0, m => if m.code = -1 then none else some (m, [])
  | f + 1, m =>
    if m.code = -1 then
      match modelStep pfuel m with
      | none => none
      | some m1 =>
        match modelLoop pfuel f m1 with
        | none => none
        | some (mf, tr) => some (mf, m.candidates.head?.toList ++ tr)
    else some (m, [])

/-- The finishing block of `Model.optimize` (lines 307-315): on code 0 copy
the incumbent key/value and each variable's value from the incumbent node;
looking up `self.nodes[None]` when no incumbent exists is a `KeyError`
(`none`), though it is only reached when the model has at least one
variable (the lookup sits inside the loop over `self.vars`). -/
def modelFinish (m : MModel) : Option MModel :=
  if m.code = 0 then
    let m1 := { m with objkey := m.icmbkey, objval := m.icmbval }
    match m1.vars.mapM (fun p =>
      match m1.objkey with
      | none => none
      | some ok =>
        match dlookup m1.nodes ok with
        | none => none
        | some nd =>
          match dlookup nd.vars p.1 with
          | none => none
          | some w => some (p.1, { p.2 with val := w.val })) with
    | none => none
    | some vars1 => some { m1 with vars := vars1 }
  else some m

/-- `Model.optimize` (lines 240-315): the loop followed by the finishing
block. -/
def modelOptimize (lfuel pfuel : Nat) (m : MModel) : Option MModel :=
  match modelLoop pfuel lfuel m with
  | none => none
  | some (m1, _) => modelFinish m1

/-! ### Spec-side readout (for the refinement comparison of claim C7) -/

/-- Modelled from the spec: a "unit column (exactly one 1 and rest 0 among
constraint rows)" (§4.2 guarantee). -/
def specIsUnitCol (ftab : List (List Q)) (j : Nat) : Bool :=
  let cons := (readCol ftab j).dropLast
  decide (cons.filter (fun q => decide (q ≠ q0)) = [q1])

/-- Modelled from the spec: the §4.2 basic-feasible-solution readout — "for
each column that is a unit column ... the corresponding variable's value is
that row's right-hand-side; all other variables are 0". -/
def specColVal (ftab : List (List Q)) (j : Nat) : Q :=
  let cons := (readCol ftab j).dropLast
  if specIsUnitCol ftab j then
    match (List.range cons.length).filter (fun i => decide (cons.getD i q0 = q1)) with
    | i :: _ => rhsAt ftab i
    | [] => q0
  else q0

/-! ### Concrete scenarios -/

def qi (n : Int) : Q := Q.ofInt n

def qq (a b : Int) : Q := Q.mk' a b

/-- The `__main__` scenario of `model.py` (lines 318-326), which is also the
spec's §8 concrete scenario: maximise `5x + 4y` subject to `3x + 5y ≤ 78.8`,
`4x + y ≤ 36.5`, `x` integer, `y` binary. -/
def c1setup : Option MModel :=
  match modelAddVar modelNew "int" none none (some "x") with
  | none => none
  | some (m, _) =>
    match modelAddVar m "bin" none none (some "y") with
    | none => none
    | some (m, _) =>
      match modelAddConstr m ⟨[("x", qi 3), ("y", qi 5)], "<=", qq 788 10⟩ with
      | none => none
      | some m =>
        match modelAddConstr m ⟨[("x", qi 4), ("y", qi 1)], "<=", qq 365 10⟩ with
        | none => none
        | some m => modelSetObjective m ⟨[("x", qi 5), ("y", qi 4)]⟩ "max"

/-- The spec's §8 infeasible scenario: continuous `x`, constraints `x ≥ 5`
and `x ≤ 3` (objective `min x`; the scenario fixes none). -/
def c2setup : Option MModel :=
  match modelAddVar modelNew "cont" none none (some "x") with
  | none => none
  | some (m, _) =>
    match modelAddConstr m ⟨[("x", qi 1)], ">=", qi 5⟩ with
    | none => none
    | some m =>
      match modelAddConstr m ⟨[("x", qi 1)], "<=", qi 3⟩ with
      | none => none
      | some m => modelSetObjective m ⟨[("x", qi 1)]⟩ "min"

/-- A model holding one integer variable `i` with `2·i ≤ 1` and objective
`min -i`; its LP relaxation is Optimal at the fractional point `i = 1/2`. -/
def c5base : Option MModel :=
  match modelAddVar modelNew "int" none none (some "i") with
  | none => none
  | some (m, _) =>
    match modelAddConstr m ⟨[("i", qi 2)], "<=", qi 1⟩ with
    | none => none
    | some m => modelSetObjective m ⟨[("i", qi (-1))]⟩ "min"

/-- The `c5base` state with an incumbent value `-1` that the relaxation value
`-1/2` does not strictly improve on: the bound test fails, so the step must
prune instead of branch. -/
def c5pruned : Option MModel :=
  c5base.map (fun m => { m with icmbval := XQ.fin (qi (-1)) })

/-- An independent copy of the pruning scenario for claim C6 (one integer
variable `j` with `2·j ≤ 1`, objective `min -j`, incumbent value `-1`). -/
def c6setup : Option MModel :=
  match modelAddVar modelNew "int" none none (some "j") with
  | none => none
  | some (m, _) =>
    match modelAddConstr m ⟨[("j", qi 2)], "<=", qi 1⟩ with
    | none => none
    | some m =>
      (modelSetObjective m ⟨[("j", qi (-1))]⟩ "min").map
        (fun m1 => { m1 with icmbval := XQ.fin (qi (-1)) })

/-- A node with continuous variables `x`, `z`, constraints `x + z ≤ 3` and
`x ≤ 4`, objective `max x + z/2`.  Its solve ends Optimal with `z`'s final
column equal to `(1, -1)` on the constraint rows: exactly one positive entry
(which is 1) but not a unit column. -/
def c7node : Option Node :=
  match nodeAddVar (mkNode 0) "cont" q0 none (some "x") with
  | none => none
  | some (n, _) =>
    match nodeAddVar n "cont" q0 none (some "z") with
    | none => none
    | some (n, _) =>
      let n1 := nodeAddConstr n ⟨[("x", qi 1), ("z", qi 1)], "<=", qi 3⟩
      let n2 := nodeAddConstr n1 ⟨[("x", qi 1)], "<=", qi 4⟩
      (nodeSetObjective n2 ⟨[("x", qi 1), ("z", qq 1 2)]⟩ "max").map Prod.fst

def c7run : Option Node := c7node.bind (nodeOptimize 10)

/-- The spec's §8 unbounded scenario: maximise `x` with no constraint. -/
def c8setup : Option MModel :=
  match modelAddVar modelNew "cont" none none (some "x") with
  | none => none
  | some (m, _) => modelSetObjective m ⟨[("x", qi 1)]⟩ "max"

def defVar : Var := { name := "", type := "" }

def emptyExpr : LinExpr := { coeffs := [] }

/-! Concrete states extracted from the scenarios, used to instantiate the
hypotheses of the universally quantified theorems below. -/

def c5w : MModel := c5base.getD modelNew

def c5wnode : Node := (dlookup c5w.nodes 0).getD (mkNode 0)

def c5wsolved : Node := (nodeOptimize 10 c5wnode).getD (mkNode 0)

def c5wv : Var := (fracList c5wsolved).headD defVar

def c5we : LinExpr := c5w.objexpr.getD emptyExpr

def c5wlpair : Node × LinExpr :=
  (nodeSetObjective
    (nodeAddConstr { c5wsolved with key := c5w.nodes.length, code := -1 }
      (leC c5wv (Q.qfloor c5wv.val)))
    c5we c5w.sense).getD (mkNode 0, emptyExpr)

def c5wrpair : Node × LinExpr :=
  (nodeSetObjective
    (nodeAddConstr { c5wsolved with key := c5w.nodes.length + 1, code := -1 }
      (geC c5wv (Q.qceil c5wv.val)))
    c5wlpair.2 c5w.sense).getD (mkNode 0, emptyExpr)

def c6m : MModel := c6setup.getD modelNew

def c6node : Node := (dlookup c6m.nodes 0).getD (mkNode 0)

def c6solved : Node := (nodeOptimize 10 c6node).getD (mkNode 0)

def c6v : Var := (fracList c6solved).headD defVar

def c8m : MModel := c8setup.getD modelNew

def c8node : Node := (dlookup c8m.nodes 0).getD (mkNode 0)

def c8solved : Node := (nodeOptimize 10 c8node).getD (mkNode 0)

def c10pair : MModel × Var :=
  (modelAddVar modelNew "int" none none (some "x")).getD (modelNew, defVar)

def c4wn : Node := mkNode 0

/-! ### Dictionary lemmas -/

theorem dlookup_isSome_iff {κ α : Type} [DecidableEq κ] (d : List (κ × α)) (k : κ) :
    (dlookup d k).isSome ↔ k ∈ dkeys d := by
  induction d with
  | nil => simp [dlookup, dkeys]
  | cons p t ih =>
    obtain ⟨k', v⟩ := p
    by_cases h : k' = k
    · subst h; simp [dlookup, dkeys]
    · simp [dlookup, dkeys, h, ih, Ne.symm h]

theorem mem_of_dlookup {κ α : Type} [DecidableEq κ] {d : List (κ × α)} {k : κ} {v : α}
    (h : dlookup d k = some v) : k ∈ dkeys d := by
  rw [← dlookup_isSome_iff, h]; rfl

theorem dinsert_length_of_mem {κ α : Type} [DecidableEq κ] {d : List (κ × α)} {k : κ} (v : α)
    (h : k ∈ dkeys d) : (dinsert d k v).length = d.length := by
  induction d with
  | nil => simp [dkeys] at h
  | cons p t ih =>
    obtain ⟨k', v'⟩ := p
    by_cases hk : k' = k
    · simp [dinsert, hk]
    · rw [dkeys] at h
      simp only [List.map_cons, List.mem_cons] at h
      rcases h with h | h
      · exact absurd h.symm hk
      · simp [dinsert, hk, ih h]

theorem dkeys_dinsert_of_mem {κ α : Type} [DecidableEq κ] {d : List (κ × α)} {k : κ} (v : α)
    (h : k ∈ dkeys d) : dkeys (dinsert d k v) = dkeys d := by
  induction d with
  | nil => simp [dkeys] at h
  | cons p t ih =>
    obtain ⟨k', v'⟩ := p
    by_cases hk : k' = k
    · simp [dinsert, hk, dkeys]
    · rw [dkeys] at h
      simp only [List.map_cons, List.mem_cons] at h
      rcases h with h | h
      · exact absurd h.symm hk
      · have ht := ih h
        simp only [dinsert, if_neg hk, dkeys, List.map_cons]
        exact congrArg (List.cons k') ht

theorem dinsert_eq_append {κ α : Type} [DecidableEq κ] {d : List (κ × α)} {k : κ} (v : α)
    (h : k ∉ dkeys d) : dinsert d k v = d ++ [(k, v)] := by
  induction d with
  | nil => simp [dinsert]
  | cons p t ih =>
    obtain ⟨k', v'⟩ := p
    rw [dkeys] at h
    simp only [List.map_cons, List.mem_cons] at h
    push_neg at h
    simp [dinsert, Ne.symm h.1, ih h.2]

theorem dkeys_append {κ α : Type} (d1 d2 : List (κ × α)) :
    dkeys (d1 ++ d2) = dkeys d1 ++ dkeys d2 := by
  simp [dkeys]

theorem dlookup_dinsert_self {κ α : Type} [DecidableEq κ] (d : List (κ × α)) (k : κ) (v : α) :
    dlookup (dinsert d k v) k = some v := by
  induction d with
  | nil => simp [dinsert, dlookup]
  | cons p t ih =>
    obtain ⟨k', v'⟩ := p
    by_cases hk : k' = k
    · simp [dinsert, hk, dlookup]
    · simp [dinsert, hk, dlookup, ih]

theorem dlookup_dinsert_ne {κ α : Type} [DecidableEq κ] (d : List (κ × α)) {j k : κ} (v : α)
    (h : j ≠ k) : dlookup (dinsert d k v) j = dlookup d j := by
  induction d with
  | nil => simp [dinsert, dlookup, Ne.symm h]
  | cons p t ih =>
    obtain ⟨k', v'⟩ := p
    by_cases hk : k' = k
    · subst hk; simp [dinsert, dlookup, Ne.symm h]
    · by_cases hj : k' = j
      · simp [dinsert, hk, dlookup, hj, h]
      · simp [dinsert, hk, dlookup, hj, ih]

theorem dinsert_noop {κ α : Type} [DecidableEq κ] {d : List (κ × α)} {k : κ} {v : α}
    (h : dlookup d k = some v) : dinsert d k v = d := by
  induction d with
  | nil => simp [dlookup] at h
  | cons p t ih =>
    obtain ⟨k', v'⟩ := p
    by_cases hk : k' = k
    · subst hk
      simp [dlookup] at h
      simp [dinsert, h]
    · simp [dlookup, hk] at h
      simp [dinsert, hk, ih h]

theorem lookup_of_nodup {κ α : Type} [DecidableEq κ] {d : List (κ × α)}
    (hnd : (dkeys d).Nodup) : ∀ p ∈ d, dlookup d p.1 = some p.2 := by
  induction d with
  | nil => intro p hp; simp at hp
  | cons q t ih =>
    obtain ⟨k', v'⟩ := q
    rw [dkeys] at hnd
    simp only [List.map_cons, List.nodup_cons] at hnd
    intro p hp
    rcases List.mem_cons.mp hp with h | h
    · subst h; simp [dlookup]
    · have hne : k' ≠ p.1 := by
        intro hcontra
        exact hnd.1 (hcontra ▸ (List.mem_map.mpr ⟨p, h, rfl⟩))
      simp [dlookup, hne]
      exact ih hnd.2 p h

theorem dupdate_nil {κ α : Type} [DecidableEq κ] (d : List (κ × α)) : dupdate d [] = d := rfl

theorem dupdate_cons {κ α : Type} [DecidableEq κ] (d t : List (κ × α)) (k : κ) (v : α) :
    dupdate d ((k, v) :: t) = dupdate (dinsert d k v) t := rfl

theorem dupdate_noop {κ α : Type} [DecidableEq κ] {d d2 : List (κ × α)}
    (h : ∀ p ∈ d2, dlookup d p.1 = some p.2) : dupdate d d2 = d := by
  induction d2 with
  | nil => rfl
  | cons p t ih =>
    obtain ⟨k, v⟩ := p
    rw [dupdate_cons, dinsert_noop (h (k, v) (by simp))]
    exact ih (fun q hq => h q (by simp [hq]))

theorem dupdate_dinsert {κ α : Type} [DecidableEq κ] {dd X : List (κ × α)} {nm : κ} {v : α}
    (hnd : (dkeys dd).Nodup) (hsub : ∀ p ∈ dd, dlookup X p.1 = some p.2) :
    dupdate X (dinsert dd nm v) = dinsert X nm v := by
  induction dd generalizing X with
  | nil => simp [dinsert, dupdate_cons, dupdate_nil]
  | cons p t ih =>
    obtain ⟨k, w⟩ := p
    rw [dkeys] at hnd
    simp only [List.map_cons, List.nodup_cons] at hnd
    by_cases hk : k = nm
    · subst hk
      show dupdate X (dinsert ((k, w) :: t) k v) = dinsert X k v
      have : dinsert ((k, w) :: t) k v = (k, v) :: t := by simp [dinsert]
      rw [this, dupdate_cons]
      refine dupdate_noop (fun q hq => ?_)
      have hqk : q.1 ≠ k := by
        intro hcontra
        exact hnd.1 (hcontra ▸ (List.mem_map.mpr ⟨q, hq, rfl⟩))
      rw [dlookup_dinsert_ne _ _ hqk]
      exact hsub q (by simp [hq])
    · have : dinsert ((k, w) :: t) nm v = (k, w) :: dinsert t nm v := by simp [dinsert, hk]
      rw [this, dupdate_cons, dinsert_noop (hsub (k, w) (by simp))]
      exact ih hnd.2 (fun q hq => hsub q (by simp [hq]))

theorem mem_dkeys_dinsert_self {κ α : Type} [DecidableEq κ] (d : List (κ × α)) (k : κ) (v : α) :
    k ∈ dkeys (dinsert d k v) := by
  rw [← dlookup_isSome_iff, dlookup_dinsert_self]; rfl

theorem mem_dkeys_dinsert_of_mem {κ α : Type} [DecidableEq κ] {d : List (κ × α)} {j : κ}
    (k : κ) (v : α) (h : j ∈ dkeys d) : j ∈ dkeys (dinsert d k v) := by
  by_cases hjk : j = k
  · subst hjk; exact mem_dkeys_dinsert_self d j v
  · rw [← dlookup_isSome_iff, dlookup_dinsert_ne _ _ hjk, dlookup_isSome_iff]
    exact h

theorem mem_dkeys_dupdate_left {κ α : Type} [DecidableEq κ] {d1 : List (κ × α)} {j : κ}
    (d2 : List (κ × α)) (h : j ∈ dkeys d1) : j ∈ dkeys (dupdate d1 d2) := by
  induction d2 generalizing d1 with
  | nil => exact h
  | cons p t ih =>
    obtain ⟨k, v⟩ := p
    rw [dupdate_cons]
    exact ih (mem_dkeys_dinsert_of_mem k v h)

theorem mem_dkeys_dupdate_right {κ α : Type} [DecidableEq κ] {d2 : List (κ × α)} {j : κ}
    (d1 : List (κ × α)) (h : j ∈ dkeys d2) : j ∈ dkeys (dupdate d1 d2) := by
  induction d2 generalizing d1 with
  | nil => simp [dkeys] at h
  | cons p t ih =>
    obtain ⟨k, v⟩ := p
    rw [dkeys] at h
    simp only [List.map_cons, List.mem_cons] at h
    rw [dupdate_cons]
    rcases h with h | h
    · exact mem_dkeys_dupdate_left t (h ▸ mem_dkeys_dinsert_self d1 k v)
    · exact ih (dinsert d1 k v) h

/-! ### Node operation lemmas -/

theorem nodeAddConstr_le (n : Node) (v : Var) (b : Q) :
    nodeAddConstr n (leC v b) = { n with
      slacks := dinsert n.slacks ("s" ++ toString (n.slacks.length + 1))
        { name := "s" ++ toString (n.slacks.length + 1), type := "cont" },
      constrs := n.constrs ++
        [{ coeffs := dinsert [(v.name, q1)] ("s" ++ toString (n.slacks.length + 1)) q1,
           sense := "<=", b := b }] } := by
  simp [nodeAddConstr, leC]

theorem nodeAddConstr_ge (n : Node) (v : Var) (b : Q) :
    nodeAddConstr n (geC v b) = { n with
      surplus := dinsert n.surplus ("p" ++ toString (n.surplus.length + 1))
        { name := "p" ++ toString (n.surplus.length + 1), type := "cont" },
      constrs := n.constrs ++
        [{ coeffs := dinsert [(v.name, q1)] ("p" ++ toString (n.surplus.length + 1)) (Q.neg q1),
           sense := ">=", b := b }] } := by
  simp [nodeAddConstr, geC]

theorem nodeSetObjective_eq (n n1 : Node) (e e1 : LinExpr) (s : String)
    (hconst : dlookup e.coeffs "const" = none)
    (h : nodeSetObjective n e s = some (n1, e1)) :
    e1 = e ∧ n1.objexpr = some e ∧ n1.constrs = n.constrs ∧ n1.vars = n.vars ∧
    n1.key = n.key ∧ n1.code = n.code ∧ n1.slacks = n.slacks ∧ n1.surplus = n.surplus ∧
    n1.sense = (if s = "max" then "max" else n.sense) := by
  unfold nodeSetObjective at h
  simp only [hconst] at h
  split at h
  · exact absurd h (by simp)
  · split at h
    · injection h with h'
      injection h' with h1 h2
      subst h1; subst h2
      simp_all
    · injection h with h'
      injection h' with h1 h2
      subst h1; subst h2
      simp_all

theorem nodeSetTab_pres (n t : Node) (h : nodeSetTab n = some t) :
    t.sense = n.sense ∧ t.constrs = n.constrs ∧ t.slacks = n.slacks ∧
    t.surplus = n.surplus ∧ t.key = n.key ∧ t.vars = n.vars ∧ t.code = n.code ∧
    t.objval = n.objval ∧ t.ints = n.ints ∧ t.bins = n.bins ∧ t.conts = n.conts := by
  unfold nodeSetTab at h
  dsimp only at h
  split at h
  · split at h
    · injection h with h'
      subst h'
      simp
    · exact absurd h (by simp)
  · exact absurd h (by simp)

theorem nodeOptimize_pres (pf : Nat) (n n1 : Node) (h : nodeOptimize pf n = some n1) :
    n1.sense = n.sense ∧ n1.constrs = n.constrs ∧ n1.slacks = n.slacks ∧
    n1.surplus = n.surplus ∧ n1.key = n.key := by
  unfold nodeOptimize at h
  split at h
  · exact absurd h (by simp)
  · rename_i t ht
    have hp := nodeSetTab_pres n t ht
    split at h
    · exact absurd h (by simp)
    · split at h
      · exact absurd h (by simp)
      · split at h
        · injection h with h'
          subst h'
          simp [hp.1, hp.2.1, hp.2.2.1, hp.2.2.2.1, hp.2.2.2.2.1]
        · injection h with h'
          subst h'
          simp [hp.1, hp.2.1, hp.2.2.1, hp.2.2.2.1, hp.2.2.2.2.1]

/-! ### Claim theorems -/

/-- Claim C1: for the concrete MILP "maximize 5x + 4y subject to
3x + 5y ≤ 78.8, 4x + y ≤ 36.5, x integer ≥ 0, y binary" (the `__main__`
scenario), `Model.optimize` finishes with status Optimal (code 0), variable
values x = 8 and y = 1, and objective value 44. -/
theorem c1_concrete_milp :
    (c1setup.bind (modelOptimize 10 20)).map (fun m =>
      (m.code, (dlookup m.vars "x").map Var.val, (dlookup m.vars "y").map Var.val, m.objval)) =
      some (0, some (qi 8), some (qi 1), XQ.fin (qi 44)) := by decide

/-- Claim C2 is violated by the code: for the model with continuous `x` and
constraints `x ≥ 5`, `x ≤ 3`, the root relaxation is detected infeasible
(node code 2) and dropped, after which the loop ends with model code 0 (never
2 — `Model.optimize` has no assignment of code 2), the incumbent key is still
`None`, and the finishing block then raises a KeyError looking up
`self.nodes[None]`, so `Model.optimize` does not finish with status
Infeasible. -/
theorem c2_infeasible_keyerror :
    (c2setup.bind (fun m => modelLoop 10 20 m)).map (fun p => (p.1.code, p.1.icmbkey, p.2)) =
      some (0, none, [0]) ∧
    c2setup.bind (modelOptimize 20 10) = none := by
  exact ⟨by decide, by decide⟩

/-- Claim C3 is violated by the code: `Model.add_var` with a lower and an
upper bound both given terminates by raising a KeyError (no branch of the
`lb`/`ub` dispatch handles that case, so the variable is never created and
the final `self.nodes[0].vars[name]` lookup fails), not by a status code. -/
theorem c3_addvar_raises :
    modelAddVar modelNew "bin" (some q0) (some q1) (some "b") = none := by decide

/-- Claim C9 is violated by the code: `Model.add_var` raises a KeyError both
when lower and upper bound are given together (the variable is never created)
and when the name is omitted (the final lookup uses `None` instead of the
generated name), instead of returning a variable handle. -/
theorem c9_addvar_both_cases_raise :
    modelAddVar modelNew "cont" (some (qi 1)) (some (qi 2)) (some "z") = none ∧
    modelAddVar modelNew "int" none none none = none := by
  exact ⟨by decide, by decide⟩

/-- Claim C7 is violated by the code: on the node "max x + z/2 subject to
x + z ≤ 3, x ≤ 4" the solve ends Optimal and assigns z = 3, although z's
final column is (1, -1) on the constraint rows — exactly one strictly
positive entry and exactly one entry equal to 1, but not a unit column — so
the claimed (spec §4.2) readout demands z = 0.  The code never checks that
the remaining entries of the column are 0. -/
theorem c7_readout_mismatch :
    c7run.map (fun n => (n.code, (dlookup n.vars "z").map Var.val)) = some (0, some (qi 3)) ∧
    c7run.map (fun n => specIsUnitCol (n.spxTab.getD []) 1) = some false ∧
    c7run.map (fun n => specColVal (n.spxTab.getD []) 1) = some q0 := by
  exact ⟨by decide, by decide, by decide⟩

/-- Claim C6: whenever the solved node is Optimal with a fractional
integer/binary variable but its relaxation objective is not strictly better
than the incumbent under the model's sense, the loop body removes the node
from the candidate set, creates no child node (the tree map keeps exactly its
keys, the solved node being written back in place), and leaves the incumbent
key and value unchanged (the resulting model differs from `m` only in the
solved node and the candidate list). -/
theorem c6_bound_prunes (pf k : Nat) (ks : List Nat) (m : MModel) (node solved : Node)
    (v : Var) (vs : List Var)
    (hc : m.candidates = k :: ks)
    (hn : dlookup m.nodes k = some node)
    (hs : nodeOptimize pf node = some solved)
    (h0 : solved.code = 0)
    (hf : fracList solved = v :: vs)
    (hnb : better m.sense solved.objval m.icmbval = false) :
    modelStep pf m = some { m with nodes := dinsert m.nodes k solved, candidates := ks } ∧
    dkeys (dinsert m.nodes k solved) = dkeys m.nodes := by
  constructor
  · simp only [modelStep, hc, hn, hs, h0, hf, hnb]
    simp
  · exact dkeys_dinsert_of_mem solved (mem_of_dlookup hn)

/-- Witness for claim C6: in the pruning scenario (one integer variable with
`2j ≤ 1`, objective `min -j`, incumbent value -1, relaxation value -1/2) the
hypotheses hold and the step prunes. -/
theorem c6_bound_prunes_witness :
    (c6m.candidates = 0 :: [] ∧ dlookup c6m.nodes 0 = some c6node ∧
     nodeOptimize 10 c6node = some c6solved ∧ c6solved.code = 0 ∧
     fracList c6solved = c6v :: [] ∧ better c6m.sense c6solved.objval c6m.icmbval = false) ∧
    (modelStep 10 c6m = some { c6m with nodes := dinsert c6m.nodes 0 c6solved, candidates := [] } ∧
     dkeys (dinsert c6m.nodes 0 c6solved) = dkeys c6m.nodes) := by
  refine ⟨⟨by decide, by decide, by decide, by decide, by decide, by decide⟩, ?_⟩
  exact c6_bound_prunes 10 0 [] c6m c6node c6solved c6v [] (by decide) (by decide) (by decide)
    (by decide) (by decide) (by decide)

theorem modelLoop_exit (pf f : Nat) (m : MModel) (h : ¬ m.code = -1) :
    modelLoop pf f m = some (m, []) := by
  cases f <;> simp [modelLoop, h]

/-- Claim C8: whenever the node solved in an iteration reports Unbounded
(code 1), the model code becomes 1 and the loop terminates with no further
node solved: the remaining trace of popped candidates is exactly the one key,
the candidate set is untouched, and the tree only records the solved node. -/
theorem c8_unbounded_halts (pf f k : Nat) (ks : List Nat) (m : MModel) (node solved : Node)
    (hcode : m.code = -1)
    (hc : m.candidates = k :: ks)
    (hn : dlookup m.nodes k = some node)
    (hs : nodeOptimize pf node = some solved)
    (h1 : solved.code = 1) :
    modelLoop pf (f + 1) m =
      some ({ m with nodes := dinsert m.nodes k solved, code := 1 }, [k]) := by
  have hstep : modelStep pf m = some { m with nodes := dinsert m.nodes k solved, code := 1 } := by
    simp only [modelStep, hc, hn, hs, h1]
    simp
  have hexit : modelLoop pf f { m with nodes := dinsert m.nodes k solved, code := 1 } =
      some ({ m with nodes := dinsert m.nodes k solved, code := 1 }, []) :=
    modelLoop_exit pf f _ (by simp)
  rw [hc] at hstep hexit
  simp [modelLoop, hcode, hstep, hexit, hc]

/-- Witness for claim C8: the spec's §8 unbounded scenario (maximise `x` with
no constraint) instantiates the hypotheses; the loop stops after the single
root solve with model code 1. -/
theorem c8_unbounded_halts_witness :
    (c8m.code = -1 ∧ c8m.candidates = 0 :: [] ∧ dlookup c8m.nodes 0 = some c8node ∧
     nodeOptimize 10 c8node = some c8solved ∧ c8solved.code = 1) ∧
    modelLoop 10 4 c8m = some ({ c8m with nodes := dinsert c8m.nodes 0 c8solved, code := 1 }, [0]) := by
  refine ⟨⟨by decide, by decide, by decide, by decide, by decide⟩, ?_⟩
  exact c8_unbounded_halts 10 3 0 [] c8m c8node c8solved (by decide) (by decide) (by decide)
    (by decide) (by decide)

/-- Counterexample to claim C5 as stated: a state whose first candidate
solves Optimal with a fractional integer variable (`i = 1/2`), yet after the
loop body there is still exactly one node in the tree and no candidate — no
child nodes were created, because the relaxation value -1/2 does not beat the
incumbent -1 and the body prunes instead of branching. -/
theorem c5_no_branch_cex :
    (c5pruned.bind (fun m => (dlookup m.nodes 0).bind (nodeOptimize 10))).map
      (fun n => (n.code, (fracList n).map Var.name)) = some (0, ["i"]) ∧
    (c5pruned.bind (modelStep 10)).map (fun m => (m.nodes.length, m.candidates)) =
      some (1, []) := by
  exact ⟨by decide, by decide⟩

/-- Counterexample to claim C4 as stated: declaring an integer variable with
lower bound 3 and upper bound 10 adds no constraint at all to the node (the
`int` branch of `Node.add_var` ignores the bound arguments). -/
theorem c4_int_bounds_ignored_cex :
    (nodeAddVar (mkNode 0) "int" (qi 3) (some (qi 10)) (some "i")).map (fun p => p.1.constrs) =
      some [] := by decide

theorem omap_const_of_isSome {α β : Type} {o : Option α} (h : o.isSome) (c : β) :
    o.map (fun _ => c) = some c := by
  cases o
  · simp at h
  · simp

/-- Claim C4 amended (corrected): only for a CONTINUOUS variable are
non-default bounds materialised as ordinary constraints (lower bound > 0 as
`var >= lb` with a surplus column, a given upper bound as `var <= ub` with a
slack column, in that order); a binary variable always gets `var <= 1` but
ignores the bound arguments; an integer variable ignores the bound arguments
and adds no constraint at all. -/
theorem c4_bounds_amended (n : Node) (s : String) (lb u : Q)
    (hlb : Q.blt q0 lb = true)
    (hsn : s ≠ "s" ++ toString (n.slacks.length + 1))
    (hpn : s ≠ "p" ++ toString (n.surplus.length + 1)) :
    ((nodeAddVar n "cont" lb (some u) (some s)).map (fun p => p.1.constrs) =
      some (n.constrs ++
        [{ coeffs := [(s, q1), ("p" ++ toString (n.surplus.length + 1), Q.neg q1)],
           sense := ">=", b := lb },
         { coeffs := [(s, q1), ("s" ++ toString (n.slacks.length + 1), q1)],
           sense := "<=", b := u }])) ∧
    ((nodeAddVar n "bin" lb (some u) (some s)).map (fun p => p.1.constrs) =
      some (n.constrs ++
        [{ coeffs := [(s, q1), ("s" ++ toString (n.slacks.length + 1), q1)],
           sense := "<=", b := q1 }])) ∧
    ((nodeAddVar n "int" lb (some u) (some s)).map (fun p => p.1.constrs) = some n.constrs) := by
  refine ⟨?_, ?_, ?_⟩
  · have hsome := (dlookup_isSome_iff
      (dupdate n.vars (dinsert n.conts s { name := s, type := "cont", val := q0 })) s).mpr
      (mem_dkeys_dupdate_right n.vars (mem_dkeys_dinsert_self n.conts s _))
    simp only [nodeAddVar, Option.getD_some, hlb, if_true, nodeAddConstr_ge, nodeAddConstr_le,
      Option.map_map]
    simp only [Function.comp_def]
    rw [omap_const_of_isSome hsome]
    simp [dinsert, hsn, hpn, List.append_assoc]
  · have hsome := (dlookup_isSome_iff
      (dupdate n.vars (dinsert n.bins s { name := s, type := "bin", val := q0 })) s).mpr
      (mem_dkeys_dupdate_right n.vars (mem_dkeys_dinsert_self n.bins s _))
    simp [nodeAddVar, nodeAddConstr_le, Option.map_map, Function.comp_def]
    refine ⟨Option.isSome_iff_exists.mp hsome, ?_⟩
    simp [dinsert, hsn]
  · have hsome := (dlookup_isSome_iff
      (dupdate n.vars (dinsert n.ints s { name := s, type := "int", val := q0 })) s).mpr
      (mem_dkeys_dupdate_right n.vars (mem_dkeys_dinsert_self n.ints s _))
    simp [nodeAddVar, Option.map_map, Function.comp_def]
    exact Option.isSome_iff_exists.mp hsome

/-- Witness for the amended claim C4 on a fresh node and variable `v` with
lower bound 2 and upper bound 5. -/
theorem c4_bounds_amended_witness :
    (Q.blt q0 (qi 2) = true ∧ "v" ≠ "s" ++ toString (c4wn.slacks.length + 1) ∧
     "v" ≠ "p" ++ toString (c4wn.surplus.length + 1)) ∧
    (((nodeAddVar c4wn "cont" (qi 2) (some (qi 5)) (some "v")).map (fun p => p.1.constrs) =
      some (c4wn.constrs ++
        [{ coeffs := [("v", q1), ("p" ++ toString (c4wn.surplus.length + 1), Q.neg q1)],
           sense := ">=", b := qi 2 },
         { coeffs := [("v", q1), ("s" ++ toString (c4wn.slacks.length + 1), q1)],
           sense := "<=", b := qi 5 }])) ∧
    ((nodeAddVar c4wn "bin" (qi 2) (some (qi 5)) (some "v")).map (fun p => p.1.constrs) =
      some (c4wn.constrs ++
        [{ coeffs := [("v", q1), ("s" ++ toString (c4wn.slacks.length + 1), q1)],
           sense := "<=", b := q1 }])) ∧
    ((nodeAddVar c4wn "int" (qi 2) (some (qi 5)) (some "v")).map (fun p => p.1.constrs) =
      some c4wn.constrs)) := by
  refine ⟨⟨by decide, by decide, by decide⟩, ?_⟩
  exact c4_bounds_amended c4wn "v" (qi 2) (qi 5) (by decide) (by decide) (by decide)

/-- Claim C5 amended (corrected): whenever the solved node is Optimal with a
fractional integer/binary variable AND its relaxation objective is strictly
better than the incumbent under the model's sense (the bound test the
original claim omits), the loop body branches on the first fractional
variable in integers-before-binaries declaration order: exactly two child
nodes are created, copies of the solved parent's variables and constraints
plus one bound constraint each (`var <= floor(value)` with a slack column,
`var >= ceil(value)` with a surplus column), with fresh keys strictly larger
than every existing key, code reset to Solving, the parent's objective
expression and sense, both inserted into the tree map and appended to the
candidate queue. -/
theorem c5_branch_amended (pf k : Nat) (ks : List Nat) (m : MModel) (node solved lN rN : Node)
    (v : Var) (vs : List Var) (e e1 e2 : LinExpr)
    (hc : m.candidates = k :: ks)
    (hn : dlookup m.nodes k = some node)
    (hs : nodeOptimize pf node = some solved)
    (h0 : solved.code = 0)
    (hf : fracList solved = v :: vs)
    (hb : better m.sense solved.objval m.icmbval = true)
    (he : m.objexpr = some e)
    (hconst : dlookup e.coeffs "const" = none)
    (hkeys : ∀ p ∈ m.nodes, p.1 < m.nodes.length)
    (hcand : ∀ c ∈ m.candidates, c < m.nodes.length)
    (hsense : node.sense = m.sense)
    (hl : nodeSetObjective (nodeAddConstr { solved with key := m.nodes.length, code := -1 }
        (leC v (Q.qfloor v.val))) e m.sense = some (lN, e1))
    (hr : nodeSetObjective (nodeAddConstr { solved with key := m.nodes.length + 1, code := -1 }
        (geC v (Q.qceil v.val))) e1 m.sense = some (rN, e2)) :
    modelStep pf m = some { m with
        nodes := dinsert (dinsert (dinsert m.nodes k solved) m.nodes.length lN)
            (m.nodes.length + 1) rN,
        candidates := ks ++ [m.nodes.length, m.nodes.length + 1],
        objexpr := some e } ∧
    lN.key = m.nodes.length ∧ rN.key = m.nodes.length + 1 ∧
    (∀ p ∈ m.nodes, p.1 < lN.key) ∧ lN.key < rN.key ∧
    lN.constrs = solved.constrs ++
      [{ coeffs := dinsert [(v.name, q1)] ("s" ++ toString (solved.slacks.length + 1)) q1,
         sense := "<=", b := Q.qfloor v.val }] ∧
    rN.constrs = solved.constrs ++
      [{ coeffs := dinsert [(v.name, q1)] ("p" ++ toString (solved.surplus.length + 1)) (Q.neg q1),
         sense := ">=", b := Q.qceil v.val }] ∧
    lN.vars = solved.vars ∧ rN.vars = solved.vars ∧
    lN.objexpr = some e ∧ rN.objexpr = some e ∧
    lN.sense = node.sense ∧ rN.sense = node.sense ∧
    lN.code = -1 ∧ rN.code = -1 := by
  have hpres := nodeOptimize_pres pf node solved hs
  obtain ⟨hps, hpc, hpsl, hpsu, hpk⟩ := hpres
  have hle := nodeSetObjective_eq _ lN e e1 m.sense hconst hl
  obtain ⟨he1, hlobj, hlconstrs, hlvars, hlkey, hlcode, hlslacks, hlsurp, hlsense⟩ := hle
  subst e1
  have hre := nodeSetObjective_eq _ rN e e2 m.sense hconst hr
  obtain ⟨he2, hrobj, hrconstrs, hrvars, hrkey, hrcode, hrslacks, hrsurp, hrsense⟩ := hre
  subst e2
  have hkm : k ∈ dkeys m.nodes := mem_of_dlookup hn
  have hlen1 : (dinsert m.nodes k solved).length = m.nodes.length :=
    dinsert_length_of_mem solved hkm
  have hkeys1 : dkeys (dinsert m.nodes k solved) = dkeys m.nodes :=
    dkeys_dinsert_of_mem solved hkm
  have hLnot : m.nodes.length ∉ dkeys (dinsert m.nodes k solved) := by
    rw [hkeys1]
    intro hmemL
    obtain ⟨p, hp, hpeq⟩ := List.mem_map.mp hmemL
    exact absurd (hpeq ▸ hkeys p hp) (lt_irrefl _)
  have hins2 : dinsert (dinsert m.nodes k solved) m.nodes.length lN =
      (dinsert m.nodes k solved) ++ [(m.nodes.length, lN)] := dinsert_eq_append lN hLnot
  have hlen2 : (dinsert (dinsert m.nodes k solved) m.nodes.length lN).length =
      m.nodes.length + 1 := by
    rw [hins2]
    simp [hlen1]
  have hkeyL : lN.key = m.nodes.length := by
    rw [hlkey]
    rfl
  have hkeyR : rN.key = m.nodes.length + 1 := by
    rw [hrkey]
    rfl
  have hLnotks : m.nodes.length ∉ ks := by
    intro hmem
    have := hcand m.nodes.length (by rw [hc]; exact List.mem_cons_of_mem k hmem)
    exact absurd this (lt_irrefl _)
  have hL1notks : m.nodes.length + 1 ∉ ks ++ [m.nodes.length] := by
    intro hmem
    rcases List.mem_append.mp hmem with hmem | hmem
    · have := hcand (m.nodes.length + 1) (by rw [hc]; exact List.mem_cons_of_mem k hmem)
      omega
    · simp at hmem
  refine ⟨?_, hkeyL, hkeyR, ?_, ?_, ?_, ?_, ?_, ?_, hlobj, hrobj, ?_, ?_, ?_, ?_⟩
  · -- the main modelStep equation
    simp only [modelStep, hc, hn, hs, h0, hf, hb, he, if_true]
    rw [hlen1, hl]
    dsimp only
    rw [hkeyL, hlen2, hr]
    dsimp only
    rw [hkeyR]
    have hcand1 : (k :: ks).erase k = ks := List.erase_cons_head k ks
    have hc1 : candInsert ks m.nodes.length = ks ++ [m.nodes.length] := by
      simp [candInsert, hLnotks]
    have hc2 : candInsert (ks ++ [m.nodes.length]) (m.nodes.length + 1) =
        ks ++ [m.nodes.length, m.nodes.length + 1] := by
      simp only [candInsert, if_neg hL1notks]
      simp
    simp [hcand1, hc1, hc2]
  · rw [hkeyL]; exact hkeys
  · rw [hkeyL, hkeyR]; omega
  · rw [hlconstrs, nodeAddConstr_le]
  · rw [hrconstrs, nodeAddConstr_ge]
  · rw [hlvars, nodeAddConstr_le]
  · rw [hrvars, nodeAddConstr_ge]
  · -- lN.sense = node.sense
    rw [hlsense]
    simp only [better, Bool.or_eq_true, Bool.and_eq_true, beq_iff_eq] at hb
    rcases hb with ⟨hmx, _⟩ | ⟨hmn, _⟩
    · rw [if_pos hmx, hsense, hmx]
    · have hne : m.sense ≠ "max" := by rw [hmn]; decide
      rw [if_neg hne, nodeAddConstr_le]
      show solved.sense = node.sense
      exact hps
  · rw [hrsense]
    simp only [better, Bool.or_eq_true, Bool.and_eq_true, beq_iff_eq] at hb
    rcases hb with ⟨hmx, _⟩ | ⟨hmn, _⟩
    · rw [if_pos hmx, hsense, hmx]
    · have hne : m.sense ≠ "max" := by rw [hmn]; decide
      rw [if_neg hne, nodeAddConstr_ge]
      show solved.sense = node.sense
      exact hps
  · rw [hlcode]; rfl
  · rw [hrcode]; rfl

end Toyplex

namespace Toyplex

/-- Witness for the amended claim C5: the branching scenario (integer `i`,
`2i ≤ 1`, objective `min -i`, no incumbent) satisfies every hypothesis and
the loop body creates the two children. -/
theorem c5_branch_amended_witness :
    (c5w.candidates = 0 :: [] ∧ dlookup c5w.nodes 0 = some c5wnode ∧
     nodeOptimize 10 c5wnode = some c5wsolved ∧ c5wsolved.code = 0 ∧
     fracList c5wsolved = c5wv :: [] ∧ better c5w.sense c5wsolved.objval c5w.icmbval = true ∧
     c5w.objexpr = some c5we ∧ dlookup c5we.coeffs "const" = none ∧
     (∀ p ∈ c5w.nodes, p.1 < c5w.nodes.length) ∧
     (∀ c ∈ c5w.candidates, c < c5w.nodes.length) ∧
     c5wnode.sense = c5w.sense ∧
     nodeSetObjective (nodeAddConstr { c5wsolved with key := c5w.nodes.length, code := -1 }
       (leC c5wv (Q.qfloor c5wv.val))) c5we c5w.sense = some (c5wlpair.1, c5wlpair.2) ∧
     nodeSetObjective (nodeAddConstr { c5wsolved with key := c5w.nodes.length + 1, code := -1 }
       (geC c5wv (Q.qceil c5wv.val))) c5wlpair.2 c5w.sense = some (c5wrpair.1, c5wrpair.2)) ∧
    (modelStep 10 c5w = some { c5w with
        nodes := dinsert (dinsert (dinsert c5w.nodes 0 c5wsolved) c5w.nodes.length c5wlpair.1)
            (c5w.nodes.length + 1) c5wrpair.1,
        candidates := [] ++ [c5w.nodes.length, c5w.nodes.length + 1],
        objexpr := some c5we } ∧
    c5wlpair.1.key = c5w.nodes.length ∧ c5wrpair.1.key = c5w.nodes.length + 1 ∧
    (∀ p ∈ c5w.nodes, p.1 < c5wlpair.1.key) ∧ c5wlpair.1.key < c5wrpair.1.key ∧
    c5wlpair.1.constrs = c5wsolved.constrs ++
      [{ coeffs := dinsert [(c5wv.name, q1)] ("s" ++ toString (c5wsolved.slacks.length + 1)) q1,
         sense := "<=", b := Q.qfloor c5wv.val }] ∧
    c5wrpair.1.constrs = c5wsolved.constrs ++
      [{ coeffs := dinsert [(c5wv.name, q1)] ("p" ++ toString (c5wsolved.surplus.length + 1)) (Q.neg q1),
         sense := ">=", b := Q.qceil c5wv.val }] ∧
    c5wlpair.1.vars = c5wsolved.vars ∧ c5wrpair.1.vars = c5wsolved.vars ∧
    c5wlpair.1.objexpr = some c5we ∧ c5wrpair.1.objexpr = some c5we ∧
    c5wlpair.1.sense = c5wnode.sense ∧ c5wrpair.1.sense = c5wnode.sense ∧
    c5wlpair.1.code = -1 ∧ c5wrpair.1.code = -1) := by
  refine ⟨⟨by decide, by decide, by decide, by decide, by decide, by decide, by decide, by decide,
    by decide, by decide, by decide, by decide, by decide⟩, ?_⟩
  exact c5_branch_amended 10 0 [] c5w c5wnode c5wsolved c5wlpair.1 c5wrpair.1 c5wv []
    c5we c5wlpair.2 c5wrpair.2 (by decide) (by decide) (by decide) (by decide) (by decide)
    (by decide) (by decide) (by decide) (by decide) (by decide) (by decide) (by decide) (by decide)

theorem nodeAddConstr_vars (n : Node) (c : LinConstr) : (nodeAddConstr n c).vars = n.vars := by
  unfold nodeAddConstr
  split_ifs <;> rfl

theorem omap_pair_eq_some {α β : Type} {o : Option β} {x : α} {p : α × β}
    (h : o.map (fun w => (x, w)) = some p) : p.1 = x := by
  cases o
  · simp at h
  · injection h with h'
    rw [← h']

/-- Effect of `Node.add_var` on the decision-variable dict: either unchanged
(unrecognised kind, which can only return an already-present handle) or a
single-key insertion, given the per-kind dicts are consistent sub-dicts of
`vars` (which Python guarantees by aliasing the same `Var` objects). -/
theorem nodeAddVar_vars (n n1 : Node) (ty : String) (lb : Q) (ub : Option Q)
    (name : Option String) (w : Var)
    (hcnd : (dkeys n.conts).Nodup) (hbnd : (dkeys n.bins).Nodup) (hind : (dkeys n.ints).Nodup)
    (hcsub : ∀ p ∈ n.conts, dlookup n.vars p.1 = some p.2)
    (hbsub : ∀ p ∈ n.bins, dlookup n.vars p.1 = some p.2)
    (hisub : ∀ p ∈ n.ints, dlookup n.vars p.1 = some p.2)
    (h : nodeAddVar n ty lb ub name = some (n1, w)) :
    n1.vars = n.vars ∨ ∃ nm vv, n1.vars = dinsert n.vars nm vv := by
  unfold nodeAddVar at h
  by_cases hc : ty = "cont"
  · right
    rw [if_pos hc] at h
    dsimp only at h
    have hn1 := omap_pair_eq_some h
    refine ⟨name.getD ("x" ++ toString (n.conts.length + 1)),
      { name := name.getD ("x" ++ toString (n.conts.length + 1)), type := ty, val := q0 }, ?_⟩
    rw [show n1 = ((n1, w).1 : Node) from rfl, hn1]
    rcases ub with _ | u
    · by_cases hlb0 : Q.blt q0 lb
      · simp only [hlb0, if_true, nodeAddConstr_vars]
        exact dupdate_dinsert hcnd hcsub
      · simp only [hlb0, if_false]
        exact dupdate_dinsert hcnd hcsub
    · by_cases hlb0 : Q.blt q0 lb
      · simp only [hlb0, if_true, nodeAddConstr_vars]
        exact dupdate_dinsert hcnd hcsub
      · simp only [hlb0, if_false, nodeAddConstr_vars]
        exact dupdate_dinsert hcnd hcsub
  · rw [if_neg hc] at h
    by_cases hbb : ty = "bin"
    · right
      rw [if_pos hbb] at h
      dsimp only at h
      have hn1 := omap_pair_eq_some h
      refine ⟨name.getD ("b" ++ toString (n.bins.length + 1)),
        { name := name.getD ("b" ++ toString (n.bins.length + 1)), type := ty, val := q0 }, ?_⟩
      rw [show n1 = ((n1, w).1 : Node) from rfl, hn1]
      simp only [nodeAddConstr_vars]
      exact dupdate_dinsert hbnd hbsub
    · rw [if_neg hbb] at h
      by_cases hii : ty = "int"
      · right
        rw [if_pos hii] at h
        dsimp only at h
        have hn1 := omap_pair_eq_some h
        refine ⟨name.getD ("i" ++ toString (n.ints.length + 1)),
          { name := name.getD ("i" ++ toString (n.ints.length + 1)), type := ty, val := q0 }, ?_⟩
        rw [show n1 = ((n1, w).1 : Node) from rfl, hn1]
        exact dupdate_dinsert hind hisub
      · left
        rw [if_neg hii] at h
        have hn1 := omap_pair_eq_some h
        rw [show n1 = ((n1, w).1 : Node) from rfl, hn1]

end Toyplex

namespace Toyplex

/-- Claim C10: every call of `Model.add_var` updates the model's `vars`,
`conts`, `bins`, `ints`, `slacks` and `surplus` dicts each with the root
node's full decision-variable dict, so afterwards all of them are equal to
`Model.vars`, which equals the root's `vars` — the per-kind views do not
partition the variables and the slack/surplus views hold decision variables.
Stated over any state in which the six dicts already coincide (true
initially and preserved by every call). -/
theorem c10_kind_views (m m1 : MModel) (root : Node) (v : Var) (ty : String)
    (lb ub : Option Q) (name : Option String)
    (hroot : dlookup m.nodes 0 = some root)
    (hv : m.vars = root.vars)
    (hconts : m.conts = m.vars) (hbins : m.bins = m.vars) (hints : m.ints = m.vars)
    (hslacks : m.slacks = m.vars) (hsurplus : m.surplus = m.vars)
    (hnd : (dkeys root.vars).Nodup)
    (hcnd : (dkeys root.conts).Nodup) (hbnd : (dkeys root.bins).Nodup)
    (hind : (dkeys root.ints).Nodup)
    (hcsub : ∀ p ∈ root.conts, dlookup root.vars p.1 = some p.2)
    (hbsub : ∀ p ∈ root.bins, dlookup root.vars p.1 = some p.2)
    (hisub : ∀ p ∈ root.ints, dlookup root.vars p.1 = some p.2)
    (hcall : modelAddVar m ty lb ub name = some (m1, v)) :
    ∃ root1, dlookup m1.nodes 0 = some root1 ∧ m1.vars = root1.vars ∧
      m1.conts = m1.vars ∧ m1.bins = m1.vars ∧ m1.ints = m1.vars ∧
      m1.slacks = m1.vars ∧ m1.surplus = m1.vars := by
  unfold modelAddVar at hcall
  rw [hroot] at hcall
  dsimp only at hcall
  have main : ∀ root1 : Node,
      (root1.vars = root.vars ∨ ∃ nm vv, root1.vars = dinsert root.vars nm vv) →
      m1 = { m with nodes := dinsert m.nodes 0 root1,
                    vars := dupdate m.vars root1.vars,
                    conts := dupdate m.conts root1.vars,
                    bins := dupdate m.bins root1.vars,
                    ints := dupdate m.ints root1.vars,
                    slacks := dupdate m.slacks root1.vars,
                    surplus := dupdate m.surplus root1.vars,
                    constrs := root1.constrs } →
      ∃ root1, dlookup m1.nodes 0 = some root1 ∧ m1.vars = root1.vars ∧
        m1.conts = m1.vars ∧ m1.bins = m1.vars ∧ m1.ints = m1.vars ∧
        m1.slacks = m1.vars ∧ m1.surplus = m1.vars := by
    intro root1 hcase hm1
    have hvv : dupdate m.vars root1.vars = root1.vars := by
      rw [hv]
      rcases hcase with heq | ⟨nm', vv', heq⟩
      · rw [heq]
        exact dupdate_noop (lookup_of_nodup hnd)
      · rw [heq]
        exact dupdate_dinsert hnd (lookup_of_nodup hnd)
    refine ⟨root1, ?_, ?_, ?_, ?_, ?_, ?_, ?_⟩
    · rw [hm1]
      exact dlookup_dinsert_self m.nodes 0 root1
    · rw [hm1]
      exact hvv
    · rw [hm1]
      show dupdate m.conts root1.vars = dupdate m.vars root1.vars
      rw [hconts]
    · rw [hm1]
      show dupdate m.bins root1.vars = dupdate m.vars root1.vars
      rw [hbins]
    · rw [hm1]
      show dupdate m.ints root1.vars = dupdate m.vars root1.vars
      rw [hints]
    · rw [hm1]
      show dupdate m.slacks root1.vars = dupdate m.vars root1.vars
      rw [hslacks]
    · rw [hm1]
      show dupdate m.surplus root1.vars = dupdate m.vars root1.vars
      rw [hsurplus]
  rcases lb with _ | l <;> rcases ub with _ | u
  · -- lb none, ub none
    try dsimp only at hcall
    cases haux : nodeAddVar root ty q0 none name with
    | none =>
      rw [haux] at hcall
      simp at hcall
    | some pr =>
      obtain ⟨root1, w⟩ := pr
      rw [haux] at hcall
      dsimp only [Option.map] at hcall
      rcases name with _ | nm
      · simp at hcall
      · dsimp only at hcall
        rcases hlk : dlookup root1.vars nm with _ | vv
        · rw [hlk] at hcall
          simp at hcall
        · rw [hlk] at hcall
          injection hcall with hcall'
          injection hcall' with hm1 hveq
          exact main root1 (nodeAddVar_vars root root1 ty q0 none (some nm) w hcnd hbnd hind
            hcsub hbsub hisub haux) hm1.symm
  · -- lb none, ub some
    try dsimp only at hcall
    cases haux : nodeAddVar root ty q0 (some u) name with
    | none =>
      rw [haux] at hcall
      simp at hcall
    | some pr =>
      obtain ⟨root1, w⟩ := pr
      rw [haux] at hcall
      dsimp only [Option.map] at hcall
      rcases name with _ | nm
      · simp at hcall
      · dsimp only at hcall
        rcases hlk : dlookup root1.vars nm with _ | vv
        · rw [hlk] at hcall
          simp at hcall
        · rw [hlk] at hcall
          injection hcall with hcall'
          injection hcall' with hm1 hveq
          exact main root1 (nodeAddVar_vars root root1 ty q0 (some u) (some nm) w hcnd hbnd hind
            hcsub hbsub hisub haux) hm1.symm
  · -- lb some, ub none
    try dsimp only at hcall
    cases haux : nodeAddVar root ty l none name with
    | none =>
      rw [haux] at hcall
      simp at hcall
    | some pr =>
      obtain ⟨root1, w⟩ := pr
      rw [haux] at hcall
      dsimp only [Option.map] at hcall
      rcases name with _ | nm
      · simp at hcall
      · dsimp only at hcall
        rcases hlk : dlookup root1.vars nm with _ | vv
        · rw [hlk] at hcall
          simp at hcall
        · rw [hlk] at hcall
          injection hcall with hcall'
          injection hcall' with hm1 hveq
          exact main root1 (nodeAddVar_vars root root1 ty l none (some nm) w hcnd hbnd hind
            hcsub hbsub hisub haux) hm1.symm
  · -- both bounds: no variable is created
    try dsimp only at hcall
    rcases name with _ | nm
    · simp at hcall
    · dsimp only at hcall
      rcases hlk : dlookup root.vars nm with _ | vv
      · rw [hlk] at hcall
        simp at hcall
      · rw [hlk] at hcall
        injection hcall with hcall'
        injection hcall' with hm1 hveq
        exact main root (Or.inl rfl) hm1.symm

end Toyplex

namespace Toyplex

/-- Witness for claim C10: a fresh model and `add_var(type='int', name='x')`. -/
theorem c10_kind_views_witness :
    (dlookup modelNew.nodes 0 = some (mkNode 0) ∧ modelNew.vars = (mkNode 0).vars ∧
     modelNew.conts = modelNew.vars ∧ modelNew.bins = modelNew.vars ∧
     modelNew.ints = modelNew.vars ∧ modelNew.slacks = modelNew.vars ∧
     modelNew.surplus = modelNew.vars ∧ (dkeys (mkNode 0).vars).Nodup ∧
     (dkeys (mkNode 0).conts).Nodup ∧ (dkeys (mkNode 0).bins).Nodup ∧
     (dkeys (mkNode 0).ints).Nodup ∧
     (∀ p ∈ (mkNode 0).conts, dlookup (mkNode 0).vars p.1 = some p.2) ∧
     (∀ p ∈ (mkNode 0).bins, dlookup (mkNode 0).vars p.1 = some p.2) ∧
     (∀ p ∈ (mkNode 0).ints, dlookup (mkNode 0).vars p.1 = some p.2) ∧
     modelAddVar modelNew "int" none none (some "x") = some (c10pair.1, c10pair.2)) ∧
    (∃ root1, dlookup c10pair.1.nodes 0 = some root1 ∧ c10pair.1.vars = root1.vars ∧
      c10pair.1.conts = c10pair.1.vars ∧ c10pair.1.bins = c10pair.1.vars ∧
      c10pair.1.ints = c10pair.1.vars ∧ c10pair.1.slacks = c10pair.1.vars ∧
      c10pair.1.surplus = c10pair.1.vars) := by
  refine ⟨⟨by decide, by decide, by decide, by decide, by decide, by decide, by decide, by decide,
    by decide, by decide, by decide, by decide, by decide, by decide, by decide⟩, ?_⟩
  exact c10_kind_views modelNew c10pair.1 (mkNode 0) c10pair.2 "int" none none (some "x")
    (by decide) (by decide) (by decide) (by decide) (by decide) (by decide) (by decide)
    (by decide) (by decide) (by decide) (by decide) (by decide) (by decide) (by decide)
    (by decide)

end Toyplex
